import Mathlib

/-!
Verification development for the Aetheria journaling application.

The TypeScript sources are shallowly embedded: notes and mood entries become
Lean structures, each React handler in `App.tsx` / `AIInsights.tsx` becomes a
pure function on an explicit application state, and JavaScript timestamps
(`Date.now()`) become an explicit `now : Int` argument.  External effects
(the Gemini AI calls, `JSON.parse`, `localStorage`) are modelled as explicit
arguments carrying their outcome.
-/

namespace Aetheria

/-- `MoodEntry` from `types.ts`. -/
structure MoodEntry where
  mood : String
  score : Int
  color : String
  timestamp : Int
  deriving DecidableEq, Repr

/-- `Note` from `types.ts`.  Optional TypeScript fields (`mood?`,
`moodHistory?`, `aiSummary?`, `aiReflection?`, `isFavorite?`) are `Option`s;
an absent field is `none`. -/
structure Note where
  id : String
  title : String
  content : String
  createdAt : Int
  updatedAt : Int
  mood : Option String
  moodHistory : Option (List MoodEntry)
  tags : List String
  aiSummary : Option String
  aiReflection : Option String
  isFavorite : Option Bool
  deriving DecidableEq, Repr

/-- `AIAnalysisResult` from `types.ts`. -/
structure AIAnalysisResult where
  mood : String
  moodScore : Int
  moodColor : String
  tags : List String
  summary : String
  reflectionQuestion : String
  deriving DecidableEq, Repr

/-- `Partial<Note>` as used by `updateNote`: a field that is `none` is a key
absent from the update object; `some v` is a present key whose value `v`
overwrites the note's field (JavaScript spread semantics). -/
structure NoteUpdate where
  id : Option String
  title : Option String
  content : Option String
  createdAt : Option Int
  updatedAt : Option Int
  mood : Option (Option String)
  moodHistory : Option (Option (List MoodEntry))
  tags : Option (List String)
  aiSummary : Option (Option String)
  aiReflection : Option (Option String)
  isFavorite : Option (Option Bool)
  deriving DecidableEq, Repr

/-- The empty update object `{}`. -/
def emptyUpdate : NoteUpdate :=
  ⟨none, none, none, none, none, none, none, none, none, none, none⟩

/-- JavaScript spread `{ ...note, ...updates }`. -/
def applyUpdates (note : Note) (u : NoteUpdate) : Note :=
  { id := u.id.getD note.id
    title := u.title.getD note.title
    content := u.content.getD note.content
    createdAt := u.createdAt.getD note.createdAt
    updatedAt := u.updatedAt.getD note.updatedAt
    mood := u.mood.getD note.mood
    moodHistory := u.moodHistory.getD note.moodHistory
    tags := u.tags.getD note.tags
    aiSummary := u.aiSummary.getD note.aiSummary
    aiReflection := u.aiReflection.getD note.aiReflection
    isFavorite := u.isFavorite.getD note.isFavorite }

/-- `updateNote` from `App.tsx`: guard `if (!selectedNoteId) return;`
(`null` and the empty string are both falsy), then
`notes.map(note => note.id === selectedNoteId
  ? { ...note, ...updates, updatedAt: Date.now() } : note)`. -/
def updateNote (selectedNoteId : Option String) (u : NoteUpdate) (now : Int)
    (notes : List Note) : List Note :=
  match selectedNoteId with
  | none => notes
  | some sid =>
    if sid = "" then notes
    else notes.map fun note =>
      if note.id = sid then { applyUpdates note u with updatedAt := now }
      else note

/-- `toggleFavorite` from `App.tsx`:
`notes.map(note => note.id === id
  ? { ...note, isFavorite: !note.isFavorite } : note)`.
JavaScript `!x` on `boolean | undefined` is `true` unless `x === true`,
i.e. `!(x.getD false)`; the result is always a present boolean. -/
def toggleFavorite (id : String) (notes : List Note) : List Note :=
  notes.map fun note =>
    if note.id = id then { note with isFavorite := some (!(note.isFavorite.getD false)) }
    else note

/-- Sort keys from `App.tsx` (`sortBy` state). -/
inductive SortBy where
  | createdAt
  | updatedAt
  | title
  deriving DecidableEq, Repr

/-- Sort directions from `App.tsx` (`sortOrder` state). -/
inductive SortOrder where
  | asc
  | desc
  deriving DecidableEq, Repr

/-- The `App` component state relevant to the note collection. -/
structure AppState where
  notes : List Note
  selectedNoteId : Option String
  searchTerm : String
  moodFilter : Option String
  showFavorites : Bool
  sortBy : SortBy
  sortOrder : SortOrder
  deriving DecidableEq, Repr

/-- JavaScript truthiness of a `string | null | undefined` value:
falsy exactly when absent or the empty string. -/
def strTruthy : Option String → Bool
  | none => false
  | some s => !(s == "")

/-- Substring test on character lists: does `l` contain `pat` as a
contiguous run?  Models JavaScript `String.prototype.includes`. -/
def listContainsSub (pat : List Char) : List Char → Bool
  | [] => pat.isEmpty
  | c :: rest => pat.isPrefixOf (c :: rest) || listContainsSub pat rest

/-- `s.includes(pattern)` on strings. -/
def strIncludes (s pattern : String) : Bool :=
  listContainsSub pattern.toList s.toList

/-- `String.prototype.toLowerCase`, modelled as character-wise lowering
(the standard library's `String.toLower` is the same map but is defined by
byte-position recursion, which the kernel cannot evaluate). -/
def strToLower (s : String) : String :=
  ⟨s.toList.map Char.toLower⟩

/-- `s.endsWith(post)` on strings, via the character lists (the standard
library's `String.endsWith` compares byte positions, which the kernel
cannot evaluate). -/
def strEndsWith (s post : String) : Bool :=
  post.toList.isSuffixOf s.toList

/-- The search predicate of `sortedFilteredNotes` in `App.tsx`. -/
def matchesSearch (searchTerm : String) (note : Note) : Bool :=
  strIncludes (strToLower note.title) (strToLower searchTerm) ||
  strIncludes (strToLower note.content) (strToLower searchTerm) ||
  note.tags.any fun tag => strIncludes (strToLower tag) (strToLower searchTerm)

/-- The mood predicate of `sortedFilteredNotes`:
`moodFilter ? note.mood === moodFilter : true` (a `null` or empty-string
filter is falsy and disables the filter; the comparison is against the
legacy `mood` field of the note). -/
def matchesMood (moodFilter : Option String) (note : Note) : Bool :=
  if strTruthy moodFilter then note.mood == moodFilter else true

/-- The favorites predicate of `sortedFilteredNotes`:
`showFavorites ? note.isFavorite : true` (an absent flag is falsy). -/
def matchesFavorite (showFavorites : Bool) (note : Note) : Bool :=
  if showFavorites then note.isFavorite.getD false else true

/-- Three-way string comparison standing in for
`String.prototype.localeCompare` (locale behaviour is not modelled;
only the sign of the result is used by the sort). -/
def strCompare (a b : String) : Int :=
  match compare a b with
  | .lt => -1
  | .eq => 0
  | .gt => 1

/-- The `comparison` value computed in the sort callback of
`sortedFilteredNotes`. -/
def cmpVal (sortBy : SortBy) (a b : Note) : Int :=
  match sortBy with
  | .title => strCompare a.title b.title
  | .createdAt => a.createdAt - b.createdAt
  | .updatedAt => a.updatedAt - b.updatedAt

/-- The full comparator: `sortOrder === 'asc' ? comparison : -comparison`. -/
def comparator (sortBy : SortBy) (sortOrder : SortOrder) (a b : Note) : Int :=
  match sortOrder with
  | .asc => cmpVal sortBy a b
  | .desc => -(cmpVal sortBy a b)

/-- Stable insertion of one element into a sorted list: the new element goes
before the first element `y` with `le x y`.  Because the element being
inserted originally precedes the list elements, placing it before ties
reproduces the stability of `Array.prototype.sort`. -/
def insertSorted (le : Note → Note → Bool) (x : Note) : List Note → List Note
  | [] => [x]
  | y :: ys => if le x y then x :: y :: ys else y :: insertSorted le x ys

/-- Stable sort (insertion sort), modelling the stable
`Array.prototype.sort` used on the filtered list. -/
def insertionSort (le : Note → Note → Bool) : List Note → List Note
  | [] => []
  | x :: xs => insertSorted le x (insertionSort le xs)

/-- `sortedFilteredNotes` from `App.tsx`: conjunction of the three filter
predicates, then a stable sort by the comparator. -/
def sortedFilteredNotes (notes : List Note) (searchTerm : String)
    (moodFilter : Option String) (showFavorites : Bool)
    (sortBy : SortBy) (sortOrder : SortOrder) : List Note :=
  let filtered := notes.filter fun note =>
    matchesSearch searchTerm note && matchesMood moodFilter note &&
      matchesFavorite showFavorites note
  insertionSort (fun a b => decide (comparator sortBy sortOrder a b ≤ 0)) filtered

/-- A note's mood history as a list; an absent `moodHistory` reads as `[]`
(the code never distinguishes `undefined` from `[]` when reading:
`currentNote.moodHistory ? ... : ...` spreads an empty array to the same
result the `undefined` branch produces, and `handleColorChange` sends both
to its legacy branch). -/
def histList (n : Note) : List MoodEntry :=
  n.moodHistory.getD []

/-- `updatedHistory[lastIndex] = { ...updatedHistory[lastIndex], color }`
from `handleColorChange` in `AIInsights.tsx`: replace the color of the final
entry, leaving every other entry untouched. -/
def setLastColor (c : String) : List MoodEntry → List MoodEntry
  | [] => []
  | [e] => [{ e with color := c }]
  | e :: e' :: rest => e :: setLastColor c (e' :: rest)

/-- `createNote` from `App.tsx`: the fresh note (both timestamps are the
same `Date.now()` instant of the handler run, modelled as `now`; the id is
the generated uuid). -/
def mkNewNote (newId : String) (now : Int) : Note :=
  { id := newId
    title := ""
    content := ""
    createdAt := now
    updatedAt := now
    mood := none
    moodHistory := none
    tags := []
    aiSummary := none
    aiReflection := none
    isFavorite := some false }

/-- `createNote` from `App.tsx`: prepend the new note, select it, reset the
search term, mood filter and favorites filter, and sort by creation date
descending. -/
def createNoteOp (s : AppState) (newId : String) (now : Int) : AppState :=
  { s with
    notes := mkNewNote newId now :: s.notes
    selectedNoteId := some newId
    searchTerm := ""
    moodFilter := none
    showFavorites := false
    sortBy := .createdAt
    sortOrder := .desc }

/-- An editor-driven mutation: `Editor.tsx` and the tag handlers of
`AIInsights.tsx` call `onChange`/`onUpdateNote` (i.e. `updateNote`) with
updates touching only `title`, `content`, `createdAt` or `tags`. -/
def editNoteOp (s : AppState) (u : NoteUpdate) (now : Int) : AppState :=
  { s with notes := updateNote s.selectedNoteId u now s.notes }

/-- `toggleFavorite` at the state level. -/
def toggleFavoriteOp (s : AppState) (id : String) : AppState :=
  { s with notes := toggleFavorite id s.notes }

/-- `deleteNote` from `App.tsx`: inside `window.confirm(...)`, filter the
note out and clear the selection when it was the deleted id. -/
def deleteNoteOp (s : AppState) (id : String) (confirmed : Bool) : AppState :=
  if confirmed then
    { s with
      notes := s.notes.filter fun n => n.id ≠ id
      selectedNoteId := if s.selectedNoteId = some id then none else s.selectedNoteId }
  else s

/-- `handleAIAnalyze` from `App.tsx`, success path: the AI result `r` is the
resolved value of `analyzeJournalEntry`.  Guard: a missing selected note or
falsy (empty) content returns early; otherwise a new mood entry is appended
to the history and `updateNote` stores mood, history, tags, summary and
reflection.  (The rejection path leaves the state unchanged.) -/
def analyzeOp (s : AppState) (r : AIAnalysisResult) (now : Int) : AppState :=
  match s.selectedNoteId with
  | none => s
  | some sid =>
    match s.notes.find? (fun n => n.id == sid) with
    | none => s
    | some currentNote =>
      if currentNote.content = "" then s
      else
        let newMoodEntry : MoodEntry :=
          { mood := r.mood, score := r.moodScore, color := r.moodColor, timestamp := now }
        let updatedHistory :=
          match currentNote.moodHistory with
          | some h => h ++ [newMoodEntry]
          | none => [newMoodEntry]
        let u : NoteUpdate :=
          { emptyUpdate with
            mood := some (some r.mood)
            moodHistory := some (some updatedHistory)
            tags := some r.tags
            aiSummary := some (some r.summary)
            aiReflection := some (some r.reflectionQuestion) }
        { s with notes := updateNote (some sid) u now s.notes }

/-- `handleAIContinue` from `App.tsx`, with `continuation` the resolved
value of `continueWriting`: a falsy (empty) continuation is dropped;
otherwise the continuation is appended, preceded by a space unless the
content already ends with a space character. -/
def continueOp (s : AppState) (continuation : String) (now : Int) : AppState :=
  match s.selectedNoteId with
  | none => s
  | some sid =>
    match s.notes.find? (fun n => n.id == sid) with
    | none => s
    | some currentNote =>
      if continuation = "" then s
      else
        let spacer := if strEndsWith currentNote.content " " then "" else " "
        let u : NoteUpdate :=
          { emptyUpdate with
            content := some (currentNote.content ++ spacer ++ continuation) }
        { s with notes := updateNote (some sid) u now s.notes }

/-- `handleColorChange` from `AIInsights.tsx` (the component's `note` prop
is the selected note), acting through `updateNote`: with no history (absent
or empty) and a truthy legacy `mood`, a first synthetic entry is written;
with a non-empty history the final entry's color is replaced. -/
def colorChangeOp (s : AppState) (newColor : String) (now : Int) : AppState :=
  match s.selectedNoteId with
  | none => s
  | some sid =>
    match s.notes.find? (fun n => n.id == sid) with
    | none => s
    | some note =>
      if (histList note).isEmpty then
        if strTruthy note.mood then
          let syntheticEntry : MoodEntry :=
            { mood := note.mood.getD "", score := 5, color := newColor,
              timestamp := note.updatedAt }
          let u : NoteUpdate := { emptyUpdate with moodHistory := some (some [syntheticEntry]) }
          { s with notes := updateNote (some sid) u now s.notes }
        else s
      else
        let u : NoteUpdate :=
          { emptyUpdate with
            moodHistory := some (some (setLastColor newColor (histList note))) }
        { s with notes := updateNote (some sid) u now s.notes }

/-- The state transitions of the application that touch the note
collection, one constructor per handler.  The `create` constructor carries
the uuid-freshness of the generated id; the `edit` constructor carries what
is true of every `updateNote` caller other than the two mood-history
operations: the update never contains an `id` or a `moodHistory` key. -/
inductive Step : AppState → AppState → Prop where
  | create {s newId now} : newId ∉ s.notes.map Note.id →
      Step s (createNoteOp s newId now)
  | edit {s u now} : u.id = none → u.moodHistory = none →
      Step s (editNoteOp s u now)
  | toggleFav {s id} : Step s (toggleFavoriteOp s id)
  | delete {s id confirmed} : Step s (deleteNoteOp s id confirmed)
  | analyze {s r now} : Step s (analyzeOp s r now)
  | continueWriting {s continuation now} : Step s (continueOp s continuation now)
  | colorChange {s newColor now} : Step s (colorChangeOp s newColor now)

/-- Modelled from the spec: the Synchronization & Merge Engine of §4.4 is
not among the source files (the `App.tsx` present persists only to
`localStorage`); its transition rule is modelled from the spec's words: for
each note id present in the snapshot, keep the local copy when its
`updatedAt` is strictly greater, otherwise adopt the snapshot copy; local
ids absent from the snapshot are dropped. -/
def mergeSnapshot (localNotes snapshot : List Note) : List Note :=
  snapshot.map fun remote =>
    match localNotes.find? (fun l => l.id == remote.id) with
    | some l => if remote.updatedAt < l.updatedAt then l else remote
    | none => remote

/-- The load-notes effect from `App.tsx`.  The stored strings and
`JSON.parse` are external: a cache entry is `none` when the key is absent
(or the stored string empty, which the truthiness test treats the same) and
`some outcome` when present, where `.error` is a thrown parse exception —
caught by the surrounding `try`/`catch`, after which control falls through
to the legacy key; a legacy parse failure leaves the initial `[]` state. -/
def loadNotes (savedNotes legacyNotes : Option (Except Unit (List Note))) : List Note :=
  match savedNotes with
  | some (.ok ns) => ns
  | some (.error _) =>
    (match legacyNotes with
     | some (.ok ns) => ns
     | some (.error _) => []
     | none => [])
  | none =>
    (match legacyNotes with
     | some (.ok ns) => ns
     | some (.error _) => []
     | none => [])

/-- The body of `analyzeJournalEntry` (geminiService) after the length
precheck.  The network call is external, modelled by `ai`: `.error` is a
rejected request, `.ok none` a response with no text, `.ok (some j)` a
response with text `j`; `parseResult` models `JSON.parse` on the response
text (`none` = a thrown parse error, re-thrown by the `catch`). -/
def runAnalysis (ai : String → Except Unit (Option String))
    (parseResult : String → Option AIAnalysisResult)
    (text : String) : Except String AIAnalysisResult :=
  match ai text with
  | .error _ => .error "Gemini Analysis Error"
  | .ok none => .error "No response from AI"
  | .ok (some jsonText) =>
    match parseResult jsonText with
    | some r => .ok r
    | none => .error "Gemini Analysis Error"

/-- `analyzeJournalEntry` from the gemini service:
`if (!text || text.length < 10) throw new Error("Entry too short to analyze")`,
then the request body. -/
def analyzeJournalEntry (ai : String → Except Unit (Option String))
    (parseResult : String → Option AIAnalysisResult)
    (text : String) : Except String AIAnalysisResult :=
  if text = "" ∨ text.length < 10 then .error "Entry too short to analyze"
  else runAnalysis ai parseResult text

/-- The mood-match predicate in the words of the spec claim: the note's most
recent mood-history entry's mood, or the legacy `mood` field when the note
has no mood history, equals the filter string.  Stated for comparison with
the filter the code actually applies (`matchesMood`). -/
def specMoodMatch (note : Note) (m : String) : Bool :=
  match note.moodHistory with
  | some (e :: es) => ((e :: es).getLast (List.cons_ne_nil e es)).mood == m
  | _ => note.mood == some m

/-- How one application step may change a note's mood history: unchanged,
one entry appended at the end, or the color of the final entry replaced. -/
def historyStep (h h' : List MoodEntry) : Prop :=
  h' = h ∨ (∃ e, h' = h ++ [e]) ∨ (∃ c, h ≠ [] ∧ h' = setLastColor c h)

/-- The note sequence the sidebar renders: `sortedFilteredNotes` applied to
the current state. -/
def derivedView (s : AppState) : List Note :=
  sortedFilteredNotes s.notes s.searchTerm s.moodFilter s.showFavorites
    s.sortBy s.sortOrder

/-! Concrete sample data for the concrete evaluations below. -/

/-- A plain note with no optional fields set. -/
def cNote1 : Note :=
  { id := "a", title := "T", content := "C", createdAt := 1, updatedAt := 2,
    mood := none, moodHistory := none, tags := [], aiSummary := none,
    aiReflection := none, isFavorite := none }

/-- A sample mood entry. -/
def cEntryCalm : MoodEntry :=
  { mood := "calm", score := 7, color := "#abc", timestamp := 3 }

/-- A note carrying one mood-history entry. -/
def cNoteCalm : Note :=
  { cNote1 with moodHistory := some [cEntryCalm] }

/-- A state whose single note `cNoteCalm` is selected. -/
def cStateCalm : AppState :=
  { notes := [cNoteCalm], selectedNoteId := some "a", searchTerm := "",
    moodFilter := none, showFavorites := false, sortBy := .updatedAt,
    sortOrder := .desc }

/-- A state whose single note `cNote1` is selected. -/
def cState1 : AppState :=
  { cStateCalm with notes := [cNote1] }

/-- A note whose legacy `mood` disagrees with its latest history entry. -/
def cNoteHist : Note :=
  { cNote1 with
    mood := some "happy"
    moodHistory := some [{ mood := "sad", score := 3, color := "#fff", timestamp := 9 }] }

/-- A note with legacy mood `happy` and no history. -/
def cNoteHappy : Note :=
  { cNote1 with mood := some "happy" }

/-- A note whose creation date lies after a later `createNote` instant. -/
def cFutureNote : Note :=
  { cNote1 with id := "b", createdAt := 100 }

/-- A state holding only the future-dated note. -/
def cStateFuture : AppState :=
  { cStateCalm with notes := [cFutureNote], selectedNoteId := none }

/-- A selected note whose content ends in a newline (whitespace that is not
the space character). -/
def cNoteNl : Note :=
  { cNote1 with content := "a\n" }

/-- A state whose single note `cNoteNl` is selected. -/
def cStateNl : AppState :=
  { cStateCalm with notes := [cNoteNl] }

/-- A local copy of a note, more recently updated than its snapshot. -/
def cLocalNote : Note :=
  { cNote1 with id := "m", title := "local", updatedAt := 10 }

/-- The remote snapshot copy of the same note. -/
def cRemoteNote : Note :=
  { cNote1 with id := "m", title := "remote", updatedAt := 7 }

/-! General lemmas about the embedded operations. -/

theorem note_id_inj {notes : List Note} (hnd : (notes.map Note.id).Nodup)
    {a b : Note} (ha : a ∈ notes) (hb : b ∈ notes) (h : a.id = b.id) : a = b :=
  List.inj_on_of_nodup_map hnd ha hb h

theorem find?_id_spec {notes : List Note} {sid : String} {cur : Note}
    (h : notes.find? (fun n => n.id == sid) = some cur) :
    cur ∈ notes ∧ cur.id = sid :=
  ⟨List.mem_of_find?_eq_some h, by simpa using List.find?_some h⟩

theorem applyUpdates_id_of_none {m : Note} {u : NoteUpdate} (h : u.id = none) :
    (applyUpdates m u).id = m.id := by
  simp [applyUpdates, h]

theorem applyUpdates_moodHistory_of_none {m : Note} {u : NoteUpdate}
    (h : u.moodHistory = none) :
    (applyUpdates m u).moodHistory = m.moodHistory := by
  simp [applyUpdates, h]

theorem updateNote_eq_map {sid : String} (hsid : ¬sid = "") (u : NoteUpdate)
    (now : Int) (notes : List Note) :
    updateNote (some sid) u now notes
      = notes.map fun note =>
          if note.id = sid then { applyUpdates note u with updatedAt := now }
          else note := by
  simp [updateNote, hsid]

theorem mem_insertSorted {le : Note → Note → Bool} (x y : Note)
    (l : List Note) : y ∈ insertSorted le x l ↔ y = x ∨ y ∈ l := by
  induction l with
  | nil => simp [insertSorted]
  | cons z zs ih =>
    rw [insertSorted]
    by_cases h : le x z
    · rw [if_pos h]
      simp
    · rw [if_neg h]
      simp only [List.mem_cons, ih]
      tauto

theorem mem_insertionSort {le : Note → Note → Bool} (y : Note)
    (l : List Note) : y ∈ insertionSort le l ↔ y ∈ l := by
  induction l with
  | nil => simp [insertionSort]
  | cons x xs ih => simp [insertionSort, mem_insertSorted, ih]

theorem insertionSort_cons_of_le {le : Note → Note → Bool} (x : Note)
    (l : List Note) (h : ∀ y ∈ l, le x y) :
    insertionSort le (x :: l) = x :: insertionSort le l := by
  show insertSorted le x (insertionSort le l) = _
  cases hs : insertionSort le l with
  | nil => simp [insertSorted]
  | cons z zs =>
    have hz : z ∈ insertionSort le l := by rw [hs]; exact List.mem_cons_self z zs
    have hle := h z ((mem_insertionSort z l).mp hz)
    simp [insertSorted, hle]

theorem listContainsSub_nil (l : List Char) : listContainsSub [] l = true := by
  cases l <;> simp [listContainsSub, List.isPrefixOf]

theorem strIncludes_empty_pattern (s : String) : strIncludes s "" = true :=
  listContainsSub_nil s.toList

theorem strToLower_empty : strToLower "" = "" := rfl

theorem matchesSearch_empty (n : Note) : matchesSearch "" n = true := by
  simp [matchesSearch, strToLower_empty, strIncludes_empty_pattern]

theorem matchesMood_none (n : Note) : matchesMood none n = true := rfl

theorem matchesFavorite_false (n : Note) : matchesFavorite false n = true := rfl

theorem length_filter_ne_of_nodup (notes : List Note) :
    (notes.map Note.id).Nodup → ∀ id, id ∈ notes.map Note.id →
      (notes.filter fun n => n.id ≠ id).length + 1 = notes.length := by
  induction notes with
  | nil => intro _ id h; simp at h
  | cons n rest ih =>
    intro hnd id hmem
    rw [List.map_cons, List.nodup_cons] at hnd
    obtain ⟨hnotin, hndrest⟩ := hnd
    by_cases h : n.id = id
    · have hall : ∀ m ∈ rest, (decide (m.id ≠ id)) = true := by
        intro m hm
        simp only [decide_eq_true_eq]
        intro hEq
        exact hnotin (h ▸ hEq ▸ List.mem_map_of_mem Note.id hm)
      rw [List.filter_cons_of_neg (by simp [h]), List.filter_eq_self.mpr hall]
      simp
    · have hmem' : id ∈ rest.map Note.id := by
        rcases List.mem_cons.mp hmem with h' | h'
        · exact absurd h'.symm h
        · exact h'
      rw [List.filter_cons_of_pos (by simp [h])]
      simp only [List.length_cons]
      rw [← ih hndrest id hmem']

theorem histStep_refl (h : List MoodEntry) : historyStep h h := Or.inl rfl

theorem histStep_self {notes : List Note} (hnd : (notes.map Note.id).Nodup) :
    ∀ n ∈ notes, ∀ n' ∈ notes, n.id = n'.id →
      historyStep (histList n) (histList n') := by
  intro n hn n' hn' heq
  cases note_id_inj hnd hn hn' heq
  exact histStep_refl _

theorem histStep_of_map {notes : List Note} (hnd : (notes.map Note.id).Nodup)
    {f : Note → Note} (hid : ∀ m ∈ notes, (f m).id = m.id)
    (hh : ∀ m ∈ notes, historyStep (histList m) (histList (f m))) :
    ∀ n ∈ notes, ∀ n' ∈ notes.map f, n.id = n'.id →
      historyStep (histList n) (histList n') := by
  intro n hn n' hn' heq
  obtain ⟨m, hm, rfl⟩ := List.mem_map.mp hn'
  cases note_id_inj hnd hm hn (heq.trans (hid m hm)).symm
  exact hh _ hm

theorem histStep_updateNote {notes : List Note}
    (hnd : (notes.map Note.id).Nodup) (sel : Option String) (u : NoteUpdate)
    (now : Int) (hid0 : u.id = none)
    (hh : ∀ m ∈ notes, sel = some m.id →
      historyStep (histList m)
        (histList { applyUpdates m u with updatedAt := now })) :
    ∀ n ∈ notes, ∀ n' ∈ updateNote sel u now notes, n.id = n'.id →
      historyStep (histList n) (histList n') := by
  cases sel with
  | none => exact histStep_self hnd
  | some sid =>
    by_cases hsid : sid = ""
    · rw [show updateNote (some sid) u now notes = notes from by
        simp [updateNote, hsid]]
      exact histStep_self hnd
    · rw [updateNote_eq_map hsid]
      apply histStep_of_map hnd
      · intro m hm
        by_cases h : m.id = sid
        · simp only [if_pos h]
          exact applyUpdates_id_of_none hid0
        · simp only [if_neg h]
      · intro m hm
        by_cases h : m.id = sid
        · simp only [if_pos h]
          exact hh m hm (by rw [h])
        · simp only [if_neg h]
          exact histStep_refl _

/-! The claims. -/

/-- C2, counterexample: for a note whose `isFavorite` is absent, toggling
favorite twice does not return the collection to its original state — the
flag ends as the explicit boolean `false`, not the original absent value. -/
theorem toggleFavorite_twice_cex :
    cNote1.isFavorite = none ∧
    toggleFavorite "a" (toggleFavorite "a" [cNote1]) ≠ [cNote1] ∧
    (toggleFavorite "a" (toggleFavorite "a" [cNote1])).map Note.isFavorite
      = [some false] := by
  decide

/-- C2 (amended): toggling favorite twice restores every note's
`isFavorite` as a truth value — a note whose flag was present returns to
exactly its old value, while a note whose flag was absent ends with the
explicit value `false` — and neither application changes `updatedAt` or any
other field of any note. -/
theorem toggleFavorite_twice_amended (notes : List Note) (id : String) :
    toggleFavorite id (toggleFavorite id notes)
      = notes.map (fun n =>
          if n.id = id then { n with isFavorite := some (n.isFavorite.getD false) }
          else n) ∧
    (toggleFavorite id notes).map (fun n => { n with isFavorite := none })
      = notes.map fun n => { n with isFavorite := none } := by
  constructor
  · unfold toggleFavorite
    rw [List.map_map]
    apply List.map_congr_left
    intro n _
    by_cases h : n.id = id
    · simp [Function.comp, h, Bool.not_not]
    · simp [Function.comp, h]
  · unfold toggleFavorite
    rw [List.map_map]
    apply List.map_congr_left
    intro n _
    by_cases h : n.id = id <;> simp [Function.comp, h]

/-- C5: with a note selected and its id present, `updateNote` changes only
positions carrying the selected id: every other position is unchanged, and
a position holding the selected id becomes the old note overwritten by the
update object with `updatedAt` forced to the current time — the forced
timestamp winning even when the update object itself carries an
`updatedAt` key. -/
theorem updateNote_spec (notes : List Note) (sid : String) (u : NoteUpdate)
    (now : Int) (hsid : sid ≠ "") (hmem : sid ∈ notes.map Note.id) :
    (∃ n ∈ notes, n.id = sid) ∧
    (updateNote (some sid) u now notes).length = notes.length ∧
    (∀ (i : Nat) (n : Note), notes[i]? = some n → n.id ≠ sid →
      (updateNote (some sid) u now notes)[i]? = some n) ∧
    (∀ (i : Nat) (n : Note), notes[i]? = some n → n.id = sid →
      (updateNote (some sid) u now notes)[i]?
        = some { applyUpdates n u with updatedAt := now } ∧
      ∀ t, u.updatedAt = some t →
        ({ applyUpdates n u with updatedAt := now } : Note).updatedAt = now) := by
  rw [updateNote_eq_map hsid]
  refine ⟨?_, by simp, ?_, ?_⟩
  · obtain ⟨n, hn, hid⟩ := List.mem_map.mp hmem
    exact ⟨n, hn, hid⟩
  · intro i n hi hne
    rw [List.getElem?_map, hi]
    simp [hne]
  · intro i n hi heq
    rw [List.getElem?_map, hi]
    exact ⟨by simp [heq], fun t _ => rfl⟩

/-- C5 witness at a concrete collection: the update stores the new title
and the fresh timestamp overrides the `updatedAt` carried by the update. -/
theorem updateNote_spec_witness :
    (updateNote (some "a") { emptyUpdate with title := some "X", updatedAt := some 99 }
        7 [cNote1])[0]?
      = some { applyUpdates cNote1
                 { emptyUpdate with title := some "X", updatedAt := some 99 } with
               updatedAt := 7 } :=
  ((updateNote_spec [cNote1] "a"
      { emptyUpdate with title := some "X", updatedAt := some 99 } 7
      (by decide) (by decide)).2.2.2 0 cNote1 (by decide) (by decide)).1

/-- C6, counterexample: a corrupt primary cache entry does not always yield
an empty collection — when the legacy entry parses, its notes are
adopted. -/
theorem loadNotes_corrupt_cex :
    loadNotes (some (.error ())) (some (.ok [cNote1])) = [cNote1] ∧
    ([cNote1] : List Note) ≠ [] :=
  ⟨rfl, by decide⟩

/-- C6 (amended): a corrupt cache entry never propagates its parse failure
and contributes no notes — loading with a corrupt primary entry behaves
exactly as if the entry were absent, falling back to the legacy entry, and
yields the empty collection when the legacy entry is absent or corrupt
too. -/
theorem loadNotes_corrupt_recovery :
    (∀ legacy, loadNotes (some (.error ())) legacy = loadNotes none legacy) ∧
    loadNotes (some (.error ())) none = [] ∧
    loadNotes (some (.error ())) (some (.error ())) = [] :=
  ⟨fun _ => rfl, rfl, rfl⟩

/-- C7: `analyzeJournalEntry` rejects every input shorter than 10
characters with the "Entry too short" error, independently of the AI
collaborator and the response parser (so no request outcome can influence
the result), and for every input of length at least 10 the length precheck
passes, the call proceeding to the request body. -/
theorem analyzeJournalEntry_precheck (text : String)
    (ai ai' : String → Except Unit (Option String))
    (parseResult parseResult' : String → Option AIAnalysisResult) :
    (text.length < 10 →
      analyzeJournalEntry ai parseResult text = .error "Entry too short to analyze" ∧
      analyzeJournalEntry ai parseResult text
        = analyzeJournalEntry ai' parseResult' text) ∧
    (10 ≤ text.length →
      analyzeJournalEntry ai parseResult text = runAnalysis ai parseResult text) := by
  constructor
  · intro h
    unfold analyzeJournalEntry
    rw [if_pos (Or.inr h), if_pos (Or.inr h)]
    exact ⟨rfl, rfl⟩
  · intro h
    have hcond : ¬(text = "" ∨ text.length < 10) := by
      rintro (rfl | hlt)
      · exact absurd h (by decide)
      · omega
    unfold analyzeJournalEntry
    rw [if_neg hcond]

/-- C7 witness: the 5-character input `"short"` is rejected. -/
theorem analyzeJournalEntry_precheck_witness :
    analyzeJournalEntry (fun _ => .ok none) (fun _ => none) "short"
      = .error "Entry too short to analyze" :=
  ((analyzeJournalEntry_precheck "short" (fun _ => .ok none) (fun _ => .ok none)
      (fun _ => none) (fun _ => none)).1 (by decide)).1

/-- C8: deleting a present id with the confirmation accepted removes
exactly the note with that id (ids being unique), keeps every other note,
clears the selection when the deleted id was selected and keeps the
selection otherwise. -/
theorem deleteNote_spec (s : AppState) (id : String)
    (hnd : (s.notes.map Note.id).Nodup) (hmem : id ∈ s.notes.map Note.id) :
    (deleteNoteOp s id true).notes.length + 1 = s.notes.length ∧
    (∀ n, n ∈ (deleteNoteOp s id true).notes ↔ n ∈ s.notes ∧ n.id ≠ id) ∧
    (s.selectedNoteId = some id → (deleteNoteOp s id true).selectedNoteId = none) ∧
    (s.selectedNoteId ≠ some id →
      (deleteNoteOp s id true).selectedNoteId = s.selectedNoteId) := by
  unfold deleteNoteOp
  simp only [if_true]
  refine ⟨?_, ?_, ?_, ?_⟩
  · exact length_filter_ne_of_nodup s.notes hnd id hmem
  · intro n
    simp [List.mem_filter]
  · intro h
    simp [h]
  · intro h
    simp [h]

/-- C8 witness: deleting the selected note of a concrete state clears the
selection. -/
theorem deleteNote_spec_witness :
    (deleteNoteOp cStateCalm "a" true).selectedNoteId = none :=
  (deleteNote_spec cStateCalm "a" (by decide) (by decide)).2.2.1 (by decide)

/-- C1 (spec-modelled merge engine): for every pair of a local note and a
snapshot note sharing an id, the merge keeps whichever copy has the
strictly greater `updatedAt`, and adopts the remote copy on ties. -/
theorem mergeSnapshot_lww (localNotes snapshot : List Note)
    (hnd : (localNotes.map Note.id).Nodup)
    (i : Nat) (r : Note) (hr : snapshot[i]? = some r)
    (l : Note) (hl : l ∈ localNotes) (hid : l.id = r.id) :
    (mergeSnapshot localNotes snapshot)[i]?
      = some (if r.updatedAt < l.updatedAt then l else r) ∧
    (r.updatedAt = l.updatedAt →
      (mergeSnapshot localNotes snapshot)[i]? = some r) := by
  have hfind : localNotes.find? (fun n => n.id == r.id) = some l := by
    cases hf : localNotes.find? (fun n => n.id == r.id) with
    | none =>
      have := List.find?_eq_none.mp hf l hl
      simp at this
      exact absurd hid this
    | some m =>
      obtain ⟨hm, hmid⟩ := find?_id_spec hf
      rw [note_id_inj hnd hm hl (hmid.trans hid.symm)]
  have hmain : (mergeSnapshot localNotes snapshot)[i]?
      = some (if r.updatedAt < l.updatedAt then l else r) := by
    unfold mergeSnapshot
    rw [List.getElem?_map, hr]
    simp [hfind]
  refine ⟨hmain, fun hEq => ?_⟩
  rw [hmain, if_neg (by omega)]

/-- C1 witness: a locally newer copy survives a staler snapshot copy. -/
theorem mergeSnapshot_lww_witness :
    (mergeSnapshot [cLocalNote] [cRemoteNote])[0]?
      = some (if cRemoteNote.updatedAt < cLocalNote.updatedAt
              then cLocalNote else cRemoteNote) :=
  (mergeSnapshot_lww [cLocalNote] [cRemoteNote] (by decide) 0 cRemoteNote
    (by decide) cLocalNote (by decide) (by decide)).1

/-- C3, counterexample: the filter reads the legacy `mood` field, not the
most recent mood-history entry — a note whose latest history entry is
`"sad"` but whose `mood` field is `"happy"` satisfies the claim's predicate
for `M = "sad"` yet is excluded from the filtered view, which the claim
says equals exactly that subset. -/
theorem moodFilter_history_cex :
    specMoodMatch cNoteHist "sad" = true ∧
    cNoteHist.mood = some "happy" ∧
    sortedFilteredNotes [cNoteHist] "" (some "sad") false .updatedAt .desc = [] := by
  decide

/-- C3 (amended): with an empty search term, favorites off and a non-empty
mood filter `M`, the filtered view contains exactly the notes whose legacy
`mood` field equals `M` (the analysis handler keeps `mood` equal to the
latest history entry's mood for notes it writes, but the filter itself
reads only `mood`). -/
theorem moodFilter_matches_legacy_mood (notes : List Note) (m : String)
    (hm : m ≠ "") (sb : SortBy) (so : SortOrder) (n : Note) :
    n ∈ sortedFilteredNotes notes "" (some m) false sb so ↔
      n ∈ notes ∧ n.mood = some m := by
  unfold sortedFilteredNotes
  rw [mem_insertionSort, List.mem_filter]
  have hmood : matchesMood (some m) n = (n.mood == some m) := by
    simp [matchesMood, strTruthy, hm]
  simp [matchesSearch_empty, hmood, matchesFavorite_false]

/-- C3 witness: a note whose legacy mood equals the filter is retained. -/
theorem moodFilter_matches_legacy_mood_witness :
    cNoteHappy ∈ sortedFilteredNotes [cNoteHappy] "" (some "happy") false
      .updatedAt .desc :=
  (moodFilter_matches_legacy_mood [cNoteHappy] "happy" (by decide)
    .updatedAt .desc cNoteHappy).mpr ⟨by decide, by decide⟩

/-- C9, counterexample: the spacer check is `endsWith(' ')` — only the
space character — not "ends in whitespace": content ending in a newline
still receives a separating space, where the claim requires direct
concatenation. -/
theorem continueOp_space_cex :
    cNoteNl.content.toList.getLast? = some '\n' ∧
    Char.isWhitespace '\n' = true ∧
    (continueOp cStateNl "next" 7).notes.map Note.content = ["a\n next"] ∧
    (continueOp cStateNl "next" 7).notes.map Note.content ≠ ["a\n" ++ "next"] := by
  decide

/-- C9 (amended): for a selected note and a non-empty continuation, the new
content is the old content followed by the continuation directly when the
old content already ends with the space character `' '`, and with a single
separating space inserted otherwise (any other trailing whitespace also
receives the space). -/
theorem continueOp_content (s : AppState) (sid : String) (cur : Note)
    (continuation : String) (now : Int)
    (hsel : s.selectedNoteId = some sid)
    (hfind : s.notes.find? (fun n => n.id == sid) = some cur)
    (hcont : continuation ≠ "") (hsid : sid ≠ "") :
    ∀ n' ∈ (continueOp s continuation now).notes, n'.id = sid →
      ((strEndsWith cur.content " " = true →
          n'.content = cur.content ++ continuation) ∧
       (strEndsWith cur.content " " = false →
          n'.content = cur.content ++ " " ++ continuation)) := by
  intro n' hn' hid'
  unfold continueOp at hn'
  rw [hsel] at hn'
  dsimp only at hn'
  rw [hfind] at hn'
  dsimp only at hn'
  rw [if_neg hcont] at hn'
  dsimp only at hn'
  rw [updateNote_eq_map hsid] at hn'
  obtain ⟨m, hm, rfl⟩ := List.mem_map.mp hn'
  by_cases h : m.id = sid
  · constructor
    · intro hends
      simp [h, applyUpdates, emptyUpdate, hends]
    · intro hends
      simp [h, applyUpdates, emptyUpdate, hends]
  · rw [if_neg h] at hid'
    exact absurd hid' h

/-- C9 witness: content not ending in a space gains a separating space. -/
theorem continueOp_content_witness :
    ({ cNote1 with content := "C next", updatedAt := 7 } : Note).content
      = cNote1.content ++ " " ++ "next" :=
  (continueOp_content cState1 "a" cNote1 "next" 7 (by decide) (by decide)
    (by decide) (by decide)
    { cNote1 with content := "C next", updatedAt := 7 } (by decide)
    (by decide)).2 (by decide)

/-- C10, counterexample: the new note need not head the derived view for
every prior state — a prior note whose user-editable `createdAt` lies after
the creation instant outranks the new note under `createdAt`-descending
sorting. -/
theorem createNote_first_cex :
    (derivedView (createNoteOp cStateFuture "new" 50)).head? = some cFutureNote ∧
    cFutureNote ≠ mkNewNote "new" 50 := by
  decide

/-- C10 (amended): `createNote` prepends a fresh note with empty title,
content and tags, `isFavorite` false and `createdAt` equal to `updatedAt`,
selects it, clears the search term, mood filter and favorites filter, and
sorts by `createdAt` descending; provided no existing note has a
`createdAt` beyond the creation instant (future dates are reachable through
the editor's date field), the new note is the first element of the derived
filtered-and-sorted view. -/
theorem createNote_spec (s : AppState) (newId : String) (now : Int)
    (hle : ∀ n ∈ s.notes, n.createdAt ≤ now) :
    (createNoteOp s newId now).notes = mkNewNote newId now :: s.notes ∧
    (mkNewNote newId now).title = "" ∧
    (mkNewNote newId now).content = "" ∧
    (mkNewNote newId now).tags = [] ∧
    (mkNewNote newId now).isFavorite = some false ∧
    (mkNewNote newId now).createdAt = (mkNewNote newId now).updatedAt ∧
    (createNoteOp s newId now).selectedNoteId = some newId ∧
    (createNoteOp s newId now).searchTerm = "" ∧
    (createNoteOp s newId now).moodFilter = none ∧
    (createNoteOp s newId now).showFavorites = false ∧
    (createNoteOp s newId now).sortBy = SortBy.createdAt ∧
    (createNoteOp s newId now).sortOrder = SortOrder.desc ∧
    (derivedView (createNoteOp s newId now)).head? = some (mkNewNote newId now) := by
  refine ⟨rfl, rfl, rfl, rfl, rfl, rfl, rfl, rfl, rfl, rfl, rfl, rfl, ?_⟩
  show (sortedFilteredNotes (mkNewNote newId now :: s.notes) "" none false
    SortBy.createdAt SortOrder.desc).head? = some (mkNewNote newId now)
  unfold sortedFilteredNotes
  have hfilter : (mkNewNote newId now :: s.notes).filter (fun note =>
      matchesSearch "" note && matchesMood none note && matchesFavorite false note)
      = mkNewNote newId now :: s.notes :=
    List.filter_eq_self.mpr fun a _ => by
      simp [matchesSearch_empty, matchesMood_none, matchesFavorite_false]
  simp only [hfilter]
  rw [insertionSort_cons_of_le]
  · rfl
  · intro y hy
    have hya := hle y hy
    simp only [comparator, cmpVal, mkNewNote, decide_eq_true_eq]
    omega

/-- C10 witness: from a concrete state with an older note, the freshly
created note heads the derived view. -/
theorem createNote_spec_witness :
    (derivedView (createNoteOp cState1 "new" 50)).head? = some (mkNewNote "new" 50) :=
  (createNote_spec cState1 "new" 50 (by decide)).2.2.2.2.2.2.2.2.2.2.2.2

/-- C4, counterexample: a reachable transition — the color-change handler —
changes an entry already present in a note's mood history in place: the
entry keeps its position but its value changes, so mood history is not
append-only. -/
theorem moodHistory_append_only_cex :
    Step cStateCalm (colorChangeOp cStateCalm "#000000" 5) ∧
    cStateCalm.notes.map histList = [[cEntryCalm]] ∧
    (colorChangeOp cStateCalm "#000000" 5).notes.map histList
      = [[{ cEntryCalm with color := "#000000" }]] ∧
    ({ cEntryCalm with color := "#000000" } : MoodEntry) ≠ cEntryCalm :=
  ⟨Step.colorChange, by decide, by decide, by decide⟩

/-- C4 (amended): across every application transition, a note's mood
history evolves only by staying unchanged, having one entry appended at the
end, or — in the color-change handler — having the color of its final
entry replaced; entries before the final one are never changed in value or
position, and no entry's mood, score or timestamp is ever changed. -/
theorem moodHistory_evolution {s s' : AppState} (hstep : Step s s')
    (hnd : (s.notes.map Note.id).Nodup) :
    ∀ n ∈ s.notes, ∀ n' ∈ s'.notes, n.id = n'.id →
      historyStep (histList n) (histList n') := by
  cases hstep with
  | @create newId now hfresh =>
    intro n hn n' hn' heq
    rcases List.mem_cons.mp hn' with rfl | hn''
    · have hid2 : n.id = newId := heq
      exact absurd (hid2 ▸ List.mem_map_of_mem Note.id hn) hfresh
    · exact histStep_self hnd n hn n' hn'' heq
  | @edit u now hid0 hmh0 =>
    apply histStep_updateNote hnd _ _ _ hid0
    intro m _ _
    refine Or.inl ?_
    show ({ applyUpdates m u with updatedAt := now } : Note).moodHistory.getD []
      = histList m
    rw [show ({ applyUpdates m u with updatedAt := now } : Note).moodHistory
        = (applyUpdates m u).moodHistory from rfl]
    rw [applyUpdates_moodHistory_of_none hmh0]
    rfl
  | @toggleFav id =>
    dsimp only [toggleFavoriteOp, toggleFavorite]
    apply histStep_of_map hnd
    · intro m _
      by_cases h : m.id = id
      · simp only [if_pos h]
      · simp only [if_neg h]
    · intro m _
      by_cases h : m.id = id
      · simp only [if_pos h]
        exact histStep_refl _
      · simp only [if_neg h]
        exact histStep_refl _
  | @delete id confirmed =>
    intro n hn n' hn' heq
    refine histStep_self hnd n hn n' ?_ heq
    cases confirmed with
    | false => simpa [deleteNoteOp] using hn'
    | true =>
      have h2 : n' ∈ s.notes ∧ ¬n'.id = id := by simpa [deleteNoteOp] using hn'
      exact h2.1
  | @analyze r now =>
    unfold analyzeOp
    cases hsel : s.selectedNoteId with
    | none => exact histStep_self hnd
    | some sid =>
      dsimp only
      cases hfind : s.notes.find? (fun n => n.id == sid) with
      | none => exact histStep_self hnd
      | some cur =>
        dsimp only
        by_cases hc : cur.content = ""
        · rw [if_pos hc]
          exact histStep_self hnd
        · rw [if_neg hc]
          dsimp only
          apply histStep_updateNote hnd _ _ _ rfl
          intro m hm hmsid
          obtain ⟨hcm, hcid⟩ := find?_id_spec hfind
          have hmeq : m = cur := by
            apply note_id_inj hnd hm hcm
            rw [hcid]
            exact (Option.some.inj hmsid).symm
          subst hmeq
          refine Or.inr (Or.inl ⟨⟨r.mood, r.moodScore, r.moodColor, now⟩, ?_⟩)
          cases hmh : m.moodHistory with
          | none => simp [histList, applyUpdates, emptyUpdate, hmh]
          | some h => simp [histList, applyUpdates, emptyUpdate, hmh]
  | @continueWriting continuation now =>
    unfold continueOp
    cases hsel : s.selectedNoteId with
    | none => exact histStep_self hnd
    | some sid =>
      dsimp only
      cases hfind : s.notes.find? (fun n => n.id == sid) with
      | none => exact histStep_self hnd
      | some cur =>
        dsimp only
        by_cases hcont : continuation = ""
        · rw [if_pos hcont]
          exact histStep_self hnd
        · rw [if_neg hcont]
          dsimp only
          apply histStep_updateNote hnd _ _ _ rfl
          intro m _ _
          exact Or.inl rfl
  | @colorChange newColor now =>
    unfold colorChangeOp
    cases hsel : s.selectedNoteId with
    | none => exact histStep_self hnd
    | some sid =>
      dsimp only
      cases hfind : s.notes.find? (fun n => n.id == sid) with
      | none => exact histStep_self hnd
      | some note =>
        dsimp only
        obtain ⟨hcm, hcid⟩ := find?_id_spec hfind
        by_cases hempty : (histList note).isEmpty
        · rw [if_pos hempty]
          by_cases hmood : strTruthy note.mood
          · rw [if_pos hmood]
            dsimp only
            apply histStep_updateNote hnd _ _ _ rfl
            intro m hm hmsid
            have hmeq : m = note := by
              apply note_id_inj hnd hm hcm
              rw [hcid]
              exact (Option.some.inj hmsid).symm
            subst hmeq
            have hnil : histList m = [] := by
              cases h : histList m with
              | nil => rfl
              | cons a l => rw [h] at hempty; simp [List.isEmpty] at hempty
            refine Or.inr (Or.inl ⟨⟨m.mood.getD "", 5, newColor, m.updatedAt⟩, ?_⟩)
            rw [hnil]
            simp [histList, applyUpdates, emptyUpdate]
          · rw [if_neg hmood]
            exact histStep_self hnd
        · rw [if_neg hempty]
          dsimp only
          apply histStep_updateNote hnd _ _ _ rfl
          intro m hm hmsid
          have hmeq : m = note := by
            apply note_id_inj hnd hm hcm
            rw [hcid]
            exact (Option.some.inj hmsid).symm
          subst hmeq
          refine Or.inr (Or.inr ⟨newColor, ?_, ?_⟩)
          · intro hnil
            rw [hnil] at hempty
            exact hempty rfl
          · simp [histList, applyUpdates, emptyUpdate]

/-- C4 witness: a favorite toggle is a transition, and across it the
sample note's one-entry history is unchanged. -/
theorem moodHistory_evolution_witness :
    historyStep (histList cNoteCalm)
      (histList { cNoteCalm with isFavorite := some true }) :=
  moodHistory_evolution (@Step.toggleFav cStateCalm "a") (by decide)
    cNoteCalm (by decide) { cNoteCalm with isFavorite := some true }
    (by decide) (by decide)

end Aetheria
